import Mathlib

/-!
Verification development for the gmail-blade rule engine: a shallow embedding of
the message-processing pipeline (filter evaluation, action dispatch, GitHub
prefetch/review, server backoff) with theorems about its behaviour.
External collaborators (the IMAP client and the GitHub API) are modelled as
oracle records of pure functions, and every externally visible command issued by
the code is recorded in an explicit effect trace.
-/

set_option maxHeartbeats 1000000
set_option linter.unusedVariables false

namespace GmailBlade

/-- A Go interface value as produced by evaluating a compiled filter condition
(`expr.Run` returns `any`). The modelled universe covers the outcomes the
engine distinguishes: `nil`, booleans, strings and integers. -/
inductive GoValue where
  | vnil : GoValue
  | vbool (b : Bool) : GoValue
  | vstr (s : String) : GoValue
  | vint (n : Int) : GoValue
deriving DecidableEq

/-- Go `fmt.Sprintf("%v", x)` on the modelled values. -/
def formatV : GoValue → String
  | .vnil => "<nil>"
  | .vbool true => "true"
  | .vbool false => "false"
  | .vstr s => s
  | .vint n => toString n

/-- The value held by `result` after `result, err := expr.Run(...)`: when the
run fails, the returned value is Go `nil`. -/
def goResult : Except String GoValue → GoValue
  | .error _ => .vnil
  | .ok v => v

/-- The match test of `processMessage`: `fmt.Sprintf("%v", result) == "true"`. -/
def isMatchRes (r : Except String GoValue) : Bool :=
  formatV (goResult r) == "true"

/-- `pat` occurs at the start of `l` (Go `strings.HasPrefix`, over rune lists). -/
def leadsWith : List Char → List Char → Bool
  | [], _ => true
  | _ :: _, [] => false
  | p :: ps, c :: cs => p == c && leadsWith ps cs

/-- Go `strings.Contains` over rune lists. -/
def containsSub : List Char → List Char → Bool
  | [], pat => leadsWith pat []
  | c :: t, pat => leadsWith pat (c :: t) || containsSub t pat

/-- Lowercase an ASCII letter; the case-insensitive regexps of the program have
ASCII-only patterns, so `(?i)` matching is modelled by lowercasing both sides. -/
def lowerAscii (c : Char) : Char :=
  if 65 ≤ c.toNat && c.toNat ≤ 90 then Char.ofNat (c.toNat + 32) else c

/-- The Go regexp whitespace class: space, tab, newline, form feed, carriage return. -/
def isGoSpace (c : Char) : Bool :=
  c == ' ' || c == '\t' || c == '\n' || c == '\x0c' || c == '\r'

/-- Match a sequence of literal words separated by one or more whitespace
characters at the start of `l` (the shape of the program's keyword regexps
such as `github\s+review`). -/
def wordsAt : List (List Char) → List Char → Bool
  | [], _ => true
  | [w], l => leadsWith w l
  | w :: ws, l =>
    leadsWith w l &&
      (let r := l.drop w.length
       let sp := r.takeWhile isGoSpace
       !sp.isEmpty && wordsAt ws (r.dropWhile isGoSpace))

/-- Whether the word-sequence pattern matches anywhere in `l`. -/
def wordsSearch (ws : List (List Char)) : List Char → Bool
  | [] => wordsAt ws []
  | c :: t => wordsAt ws (c :: t) || wordsSearch ws t

/-- `MatchString` of a case-insensitive keyword regexp of the program. -/
def matchCI (ws : List String) (s : String) : Bool :=
  wordsSearch (ws.map fun w => w.toList.map lowerAscii) (s.toList.map lowerAscii)

/-- `githubReviewRegexp`: Go regexp `(?i)github\s+review`. -/
def githubReviewMatch (s : String) : Bool := matchCI ["github", "review"] s

/-- `githubPullRequestRegexp`: Go regexp `(?i)github\s+pull\s+request`. -/
def githubPullRequestMatch (s : String) : Bool := matchCI ["github", "pull", "request"] s

/-- Leftmost-match capture of the quoted-argument regexps `label "([^\x22]*)"`
and `move to "([^\x22]*)"`: find the first occurrence of the literal key
(keyword plus opening quote) that is followed by a closing quote, and capture
the characters between the quotes. -/
def findQuoted (key : List Char) : List Char → Option (List Char)
  | [] => none
  | c :: t =>
    if leadsWith key (c :: t) then
      let r := (c :: t).drop key.length
      match r.dropWhile (fun x => x ≠ '"') with
      | '"' :: _ => some (r.takeWhile (fun x => x ≠ '"'))
      | _ => findQuoted key t
    else findQuoted key t

/-- The literal prefix of `githubPullRequestURLRegex`. -/
def urlHead : List Char := "https://github.com/".toList

/-- One `[^/]+/` segment of the pull-request URL regexp: the maximal nonempty
run of non-slash characters, followed by a slash. -/
def takeSeg (l : List Char) : Option (List Char × List Char) :=
  match l.takeWhile (fun c => c ≠ '/'), l.dropWhile (fun c => c ≠ '/') with
  | [], _ => none
  | seg, '/' :: r => some (seg, r)
  | _, _ => none

/-- Try `githubPullRequestURLRegex` (`https://github\.com/([^/]+)/([^/]+)/pull/(\d+)`)
at the start of `l`; on success return owner, repo and the digit run. -/
def tryPRAt (l : List Char) : Option (String × String × List Char) :=
  if leadsWith urlHead l then
    match takeSeg (l.drop urlHead.length) with
    | none => none
    | some (owner, r1) =>
      match takeSeg r1 with
      | none => none
      | some (repo, r2) =>
        if leadsWith "pull/".toList r2 then
          let ds := (r2.drop 5).takeWhile Char.isDigit
          if ds.isEmpty then none
          else some (owner.asString, repo.asString, ds)
        else none
  else none

/-- `githubPullRequestURLRegex.FindStringSubmatch`: the leftmost match. -/
def findPRSubmatch : List Char → Option (String × String × List Char)
  | [] => none
  | c :: t =>
    match tryPRAt (c :: t) with
    | some r => some r
    | none => findPRSubmatch t

/-- `githubPullRequestURLRegex.MatchString`. -/
def matchPRURL (body : String) : Bool := (findPRSubmatch body.toList).isSome

/-- Numeric value of a digit run. -/
def digitsToNat (ds : List Char) : Nat :=
  ds.foldl (fun acc c => acc * 10 + (c.toNat - 48)) 0

/-- Go `strconv.Atoi` on a digit run: errors when the value overflows `int64`. -/
def goAtoi (ds : List Char) : Except String Nat :=
  let n := digitsToNat ds
  if n < 9223372036854775808 then .ok n else .error "value out of range"

/-- `parseGitHubNotification`: extract owner, repo and pull-request number from
the email body. -/
def parseGitHubNotification (body : String) : Except String (String × String × Nat) :=
  match findPRSubmatch body.toList with
  | none => .error "could not find GitHub pull request URL in email"
  | some (owner, repo, ds) =>
    match goAtoi ds with
    | .error e => .error ("parse pull request number: " ++ e)
    | .ok n => .ok (owner, repo, n)

/-- `githubPullRequest`: the record built from a prefetched pull request and
exposed to conditions as the `githubPullRequest` namespace (its `Env()` map
has exactly these fields). -/
structure githubPullRequest where
  owner : String
  repo : String
  number : Nat
  author : String
deriving DecidableEq

/-- The part of the GitHub API answer to `PullRequests.Get` that the program
reads (`GetUser().GetLogin()`). -/
structure apiPullRequest where
  author : String
deriving DecidableEq

/-- One element of the answer to `PullRequests.ListReviews`: the reviewer's
login and the review state. -/
structure review where
  user : String
  state : String
deriving DecidableEq

/-- Oracle for the authenticated GitHub client: each field gives the outcome of
one remote call. -/
structure githubAPI where
  getPullRequest : String → String → Nat → Except String apiPullRequest
  listReviews : String → String → Nat → Except String (List review)
  getCurrentUser : Except String String
  createReview : String → String → Nat → Except String Unit

/-- Oracle for the IMAP client session: outcomes of `Move` and `Copy`. -/
structure mailClient where
  move : Nat → String → Except String Unit
  copy : Nat → String → Except String Unit

/-- Externally visible commands and log records issued while processing. -/
inductive Effect where
  | ghGetPR (owner repo : String) (number : Nat)
  | ghListReviews (owner repo : String) (number : Nat)
  | ghGetUser
  | ghCreateReview (owner repo : String) (number : Nat)
  | mailMove (uid : Nat) (mailbox : String)
  | mailCopy (uid : Nat) (mailbox : String)
  | logPrefetchError (msg : String)
  | logExprError (msg : String)
  | logRepoNotAllowed (repo : String)
  | logAuthorNotAllowed (author : String)
  | logAlreadyApproved
  | warnUnknownAction (action : String)
deriving DecidableEq

/-- Effects that mutate the mail store or external state (IMAP `Move`/`Copy`,
submitting a GitHub review); API reads and log lines are not mutating. -/
def isMutating : Effect → Bool
  | .mailMove _ _ => true
  | .mailCopy _ _ => true
  | .ghCreateReview _ _ _ => true
  | _ => false

/-- The run-lifetime `githubPullRequestCache`, keyed by `owner/repo#number`. -/
abbrev Cache := List (String × githubPullRequest)

/-- The cache key `fmt.Sprintf("%s/%s#%d", owner, repo, number)`. -/
def prCacheKey (owner repo : String) (number : Nat) : String :=
  owner ++ "/" ++ repo ++ "#" ++ toString number

/-- `executePrefetchGitHubPullRequest`: parse the body, consult the cache, and
only on a miss call the GitHub API; a successful fetch is stored in the cache.
Returns the result, the updated cache and the trace of external calls. -/
def executePrefetchGitHubPullRequest (api : githubAPI) (cache : Cache) (body : String) :
    Except String githubPullRequest × Cache × List Effect :=
  match parseGitHubNotification body with
  | .error e => (.error ("parse GitHub notification: " ++ e), cache, [])
  | .ok (owner, repo, number) =>
    let cacheKey := prCacheKey owner repo number
    match cache.lookup cacheKey with
    | some pr => (.ok pr, cache, [])
    | none =>
      match api.getPullRequest owner repo number with
      | .error e =>
        (.error ("get GitHub pull request " ++ cacheKey ++ ": " ++ e), cache,
          [.ghGetPR owner repo number])
      | .ok apiPr =>
        let pr : githubPullRequest := ⟨owner, repo, number, apiPr.author⟩
        (.ok pr, (cacheKey, pr) :: cache, [.ghGetPR owner repo number])

/-- One address of the message envelope. -/
structure address where
  name : String
  mailbox : String
  host : String
deriving DecidableEq

/-- The fetched message: UID, flags, envelope address lists, subject and body
sections. -/
structure fetchMessageBuffer where
  uid : Nat
  flags : List String
  envFrom : List address
  envCc : List address
  envTo : List address
  envReplyTo : List address
  subject : String
  bodySections : List String
deriving DecidableEq

/-- `imap.FlagSeen`. -/
def FlagSeen : String := "\\Seen"

/-- The `message` namespace bound into the evaluation environment. -/
structure msgEnv where
  mfrom : List String
  mfromName : List String
  msubject : String
  mcc : List String
  mto : List String
  mreplyTo : List String
  mbody : String
deriving DecidableEq

/-- `fmt.Sprintf("%s@%s", addr.Mailbox, addr.Host)`. -/
def addrString (a : address) : String := a.mailbox ++ "@" ++ a.host

/-- The concatenated body sections. -/
def msgBody (msg : fetchMessageBuffer) : String :=
  msg.bodySections.foldl (fun acc b => acc ++ b) ""

/-- Build the `message` namespace from the fetched message, exactly as
`processMessage` does. -/
def mkMsgEnv (msg : fetchMessageBuffer) : msgEnv :=
  { mfrom := msg.envFrom.map addrString
    mfromName := msg.envFrom.map address.name
    msubject := msg.subject
    mcc := msg.envCc.map addrString
    mto := msg.envTo.map addrString
    mreplyTo := msg.envReplyTo.map addrString
    mbody := msgBody msg }

/-- The full evaluation environment: the `message` namespace plus the
`githubPullRequest` prefetch namespace when prefetch data is present. -/
structure Env where
  message : msgEnv
  githubPullRequest : Option githubPullRequest

/-- Bind the environment for one condition evaluation. -/
def mkEnv (base : msgEnv) (pd : Option githubPullRequest) : Env := ⟨base, pd⟩

/-- One configured filter; `condition` is the compiled condition, modelled as a
function from the environment to the outcome of `expr.Run`. -/
structure configFilter where
  name : String
  prefetches : List String
  condition : Env → Except String GoValue
  actions : List String
  haltOnMatch : Bool

/-- `github.approval` configuration. -/
structure configGitHubApproval where
  enabled : Bool
  allowedUsernames : List String
  allowedRepositories : List String

/-- `github` configuration. -/
structure configGitHub where
  approval : configGitHubApproval

/-- The parts of the configuration the processing pipeline reads. -/
structure config where
  github : configGitHub
  filters : List configFilter

/-- The per-message prefetch loop of `processMessage` for one filter: for each
declared prefetch, when it names the GitHub pull-request prefetch, the body
contains a pull-request URL and no prefetch data is present yet, execute the
prefetch; a failure is logged and the loop continues. -/
def runPrefetches (api : githubAPI) (body : String) :
    Option githubPullRequest → Cache → List String →
      Option githubPullRequest × Cache × List Effect
  | pd, cache, [] => (pd, cache, [])
  | pd, cache, p :: ps =>
    if githubPullRequestMatch p && matchPRURL body && pd.isNone then
      match executePrefetchGitHubPullRequest api cache body with
      | (.error e, cache1, tr) =>
        let r := runPrefetches api body pd cache1 ps
        (r.1, r.2.1, tr ++ [.logPrefetchError e] ++ r.2.2)
      | (.ok pr, cache1, tr) =>
        let r := runPrefetches api body (some pr) cache1 ps
        (r.1, r.2.1, tr ++ r.2.2)
    else
      runPrefetches api body pd cache ps

/-- The error log emitted when `expr.Run` fails. -/
def condErrTrace : Except String GoValue → List Effect
  | .error e => [.logExprError e]
  | .ok _ => []

/-- One iteration of the filter loop: run the filter's prefetches, evaluate its
condition in the resulting environment, and report the updated state, the
match decision and the emitted effects. -/
def stepFilter (api : githubAPI) (body : String) (base : msgEnv)
    (pd : Option githubPullRequest) (cache : Cache) (f : configFilter) :
    (Option githubPullRequest × Cache) × Bool × List Effect :=
  let r1 := runPrefetches api body pd cache f.prefetches
  let res := f.condition (mkEnv base r1.1)
  ((r1.1, r1.2.1), isMatchRes res, r1.2.2 ++ condErrTrace res)

/-- The filter loop of `processMessage`: iterate the filters in declaration
order, appending the actions of each matching filter and stopping after the
first matching filter with `halt-on-match`. Returns the accumulated actions,
the final prefetch data and cache, and the effect trace. -/
def collectActions (api : githubAPI) (body : String) (base : msgEnv) :
    Option githubPullRequest → Cache → List configFilter →
      List String × Option githubPullRequest × Cache × List Effect
  | pd, cache, [] => ([], pd, cache, [])
  | pd, cache, f :: fs =>
    let s := stepFilter api body base pd cache f
    if s.2.1 then
      if f.haltOnMatch then (f.actions, s.1.1, s.1.2, s.2.2)
      else
        let r := collectActions api body base s.1.1 s.1.2 fs
        (f.actions ++ r.1, r.2.1, r.2.2.1, s.2.2 ++ r.2.2.2)
    else
      let r := collectActions api body base s.1.1 s.1.2 fs
      (r.1, r.2.1, r.2.2.1, s.2.2 ++ r.2.2.2)

/-- `processGitHubReview`: gate on the repository allow-list, then the author
allow-list, then skip when an approval by the current identity exists, and
only then submit a new approval. -/
def processGitHubReview (api : githubAPI) (gh : configGitHub) (uid : Nat)
    (pd : Option githubPullRequest) : Except String Unit × List Effect :=
  match pd with
  | none => (.error "invalid GitHub pull request prefetch data type", [])
  | some pr =>
    let repoFullName := pr.owner ++ "/" ++ pr.repo
    if !(gh.approval.allowedRepositories.contains repoFullName) then
      (.ok (), [.logRepoNotAllowed repoFullName])
    else if !(gh.approval.allowedUsernames.contains pr.author) then
      (.ok (), [.logAuthorNotAllowed pr.author])
    else
      match api.listReviews pr.owner pr.repo pr.number with
      | .error e =>
        (.error ("list reviews for GitHub pull request " ++ repoFullName ++ "#" ++
            toString pr.number ++ ": " ++ e),
          [.ghListReviews pr.owner pr.repo pr.number])
      | .ok reviews =>
        match api.getCurrentUser with
        | .error e =>
          (.error ("get current user: " ++ e),
            [.ghListReviews pr.owner pr.repo pr.number, .ghGetUser])
        | .ok me =>
          if reviews.any (fun r => r.user == me && r.state == "APPROVED") then
            (.ok (), [.ghListReviews pr.owner pr.repo pr.number, .ghGetUser,
              .logAlreadyApproved])
          else
            match api.createReview pr.owner pr.repo pr.number with
            | .error e =>
              (.error ("approve GitHub pull request " ++ repoFullName ++ "#" ++
                  toString pr.number ++ ": " ++ e),
                [.ghListReviews pr.owner pr.repo pr.number, .ghGetUser,
                  .ghCreateReview pr.owner pr.repo pr.number])
            | .ok _ =>
              (.ok (), [.ghListReviews pr.owner pr.repo pr.number, .ghGetUser,
                .ghCreateReview pr.owner pr.repo pr.number])

/-- The literal sought by `labelRegexp` before the capture. -/
def labelKey : List Char := "label \"".toList

/-- The literal sought by `moveToRegexp` before the capture. -/
def moveToKey : List Char := "move to \"".toList

/-- Dispatch of one action string in `processMessage`: exact `delete`, the
`label `/`move to ` prefixed forms with a quoted argument, the case-insensitive
GitHub review form when approval is enabled, and otherwise a logged unknown
action. -/
def execOneAction (mail : mailClient) (api : githubAPI) (cfg : config) (uid : Nat)
    (pd : Option githubPullRequest) (action : String) : Except String Unit × List Effect :=
  if action == "delete" then
    match mail.move uid "[Gmail]/Trash" with
    | .error e => (.error ("move email to trash: " ++ e), [.mailMove uid "[Gmail]/Trash"])
    | .ok _ => (.ok (), [.mailMove uid "[Gmail]/Trash"])
  else if leadsWith "label ".toList action.toList then
    match findQuoted labelKey action.toList with
    | none => (.error ("invalid label action format \"" ++ action ++ "\""), [])
    | some cap =>
      let labelName := cap.asString
      match mail.copy uid labelName with
      | .error e =>
        (.error ("copy email to label \"" ++ labelName ++ "\": " ++ e),
          [.mailCopy uid labelName])
      | .ok _ => (.ok (), [.mailCopy uid labelName])
  else if leadsWith "move to ".toList action.toList then
    match findQuoted moveToKey action.toList with
    | none => (.error ("invalid move to action format \"" ++ action ++ "\""), [])
    | some cap =>
      let mailboxName := cap.asString
      match mail.move uid mailboxName with
      | .error e =>
        (.error ("move email to mailbox \"" ++ mailboxName ++ "\": " ++ e),
          [.mailMove uid mailboxName])
      | .ok _ => (.ok (), [.mailMove uid mailboxName])
  else if cfg.github.approval.enabled && githubReviewMatch action then
    match processGitHubReview api cfg.github uid pd with
    | (.error e, tr) => (.error ("process GitHub review action: " ++ e), tr)
    | (.ok _, tr) => (.ok (), tr)
  else
    (.ok (), [.warnUnknownAction action])

/-- The action-execution loop of `processMessage`: execute the accumulated
actions in order; the first failing action aborts the rest. -/
def execActions (mail : mailClient) (api : githubAPI) (cfg : config) (uid : Nat)
    (pd : Option githubPullRequest) : List String → Except String Unit × List Effect
  | [] => (.ok (), [])
  | a :: rest =>
    match execOneAction mail api cfg uid pd a with
    | (.error e, tr) => (.error e, tr)
    | (.ok _, tr) =>
      let r := execActions mail api cfg uid pd rest
      (r.1, tr ++ r.2)

/-- The accumulation part of `processMessage` for one message: body, message
namespace, then the filter loop starting with empty prefetch data. -/
def messageActions (api : githubAPI) (cache : Cache) (cfg : config)
    (msg : fetchMessageBuffer) :
    List String × Option githubPullRequest × Cache × List Effect :=
  collectActions api (msgBody msg) (mkMsgEnv msg) none cache cfg.filters

/-- `processMessage`: skip seen messages; otherwise accumulate the matched
actions, stop (returning nil) when none matched or when dry-run is enabled,
and otherwise execute the actions. Returns the result, the updated
pull-request cache and the effect trace. -/
def processMessage (dryRun : Bool) (mail : mailClient) (api : githubAPI) (cfg : config)
    (cache : Cache) (msg : fetchMessageBuffer) : Except String Unit × Cache × List Effect :=
  if msg.flags.contains FlagSeen then (.ok (), cache, [])
  else
    let r := messageActions api cache cfg msg
    if r.1.isEmpty then (.ok (), r.2.2.1, r.2.2.2)
    else if dryRun then (.ok (), r.2.2.1, r.2.2.2)
    else
      let e := execActions mail api cfg msg.uid r.2.1 r.1
      (e.1, r.2.2.1, r.2.2.2 ++ e.2)

/-- `errors.Wrapf(err, "uid %d", msg.UID)` in `runOnce`. -/
def wrapUid (uid : Nat) (e : String) : String := "uid " ++ toString uid ++ ": " ++ e

/-- The per-message loop of `runOnce` over a fetched page: skip messages
already in the processed-UID ledger, skip messages outside a nonempty target
list, process the rest in order, record successes in the ledger, and return
the wrapped error of the first failing message, leaving the remaining messages
unprocessed. -/
def runOnceLoop (dryRun : Bool) (mail : mailClient) (api : githubAPI) (cfg : config) :
    Cache → List Nat → List Nat → List fetchMessageBuffer →
      Except String Unit × Cache × List Nat × List Effect
  | cache, processed, _, [] => (.ok (), cache, processed, [])
  | cache, processed, target, m :: rest =>
    if processed.contains m.uid then
      runOnceLoop dryRun mail api cfg cache processed target rest
    else if !target.isEmpty && !(target.contains m.uid) then
      runOnceLoop dryRun mail api cfg cache processed target rest
    else
      match processMessage dryRun mail api cfg cache m with
      | (.error e, cache1, tr) => (.error (wrapUid m.uid e), cache1, processed, tr)
      | (.ok _, cache1, tr) =>
        let r := runOnceLoop dryRun mail api cfg cache1 (processed ++ [m.uid]) target rest
        (r.1, r.2.1, r.2.2.1, tr ++ r.2.2.2)

/-- The catalogue of transient error signatures of `runServer`. -/
def transientErrors : List String :=
  ["unexpected EOF",
   "connection reset by peer",
   "i/o timeout",
   "use of closed network connection",
   "dial IMAP server: EOF",
   "imap: NO Lookup failed",
   "imap: NO System Error (Failure)"]

/-- `isTransientError` on an error message: containment of any catalogue entry. -/
def isTransientError (errMsg : String) : Bool :=
  transientErrors.any fun t => containsSub errMsg.toList t.toList

/-- The outcome of one `runOnce` cycle as classified by `runServer`. -/
inductive CycleResult where
  | ok
  | canceled
  | fail (msg : String)
deriving DecidableEq

/-- The update of `backoffTimes` after one cycle: a transient failure
increments it, a non-transient failure leaves it, success or cancellation
resets it to zero. -/
def nextBackoffTimes : CycleResult → Nat → Nat
  | .ok, _ => 0
  | .canceled, _ => 0
  | .fail msg, n => if isTransientError msg then n + 1 else n

/-- The `backoffTimes` counter after a sequence of cycle outcomes. -/
def foldBackoff (s : Nat) (os : List CycleResult) : Nat :=
  os.foldl (fun n o => nextBackoffTimes o n) s

/-- `time.Minute` in nanoseconds, the backoff ceiling. -/
def minuteNs : Int := 60000000000

/-- `int64` wraparound of Go duration arithmetic. -/
def int64wrap (x : Int) : Int :=
  (x + 9223372036854775808) % 18446744073709551616 - 9223372036854775808

/-- The sleep computed by `runServer`:
`configuredSleepInternal * time.Duration(backoffTimes+1)` capped at one
minute. -/
def goSleepInterval (base : Int) (backoffTimes : Nat) : Int :=
  let s := int64wrap (base * ((backoffTimes : Int) + 1))
  if s > minuteNs then minuteNs else s

/-- Declarative spec side for the filter loop: the match decision of each
filter, taken in declaration order, under the same prefetch-state evolution as
the loop (the decision of a filter depends on the prefetch data accumulated by
the earlier filters). -/
def matchBits (api : githubAPI) (body : String) (base : msgEnv) :
    Option githubPullRequest → Cache → List configFilter → List Bool
  | _, _, [] => []
  | pd, cache, f :: fs =>
    let s := stepFilter api body base pd cache f
    s.2.1 :: matchBits api body base s.1.1 s.1.2 fs

/-- Spec side: keep the filters up to and including the first matching filter
whose halt-on-match flag is set. -/
def uptoHalt : List (configFilter × Bool) → List (configFilter × Bool)
  | [] => []
  | (f, b) :: rest => if b && f.haltOnMatch then [(f, b)] else (f, b) :: uptoHalt rest

/-- Spec side: the concatenation, in declaration order, of the action lists of
exactly the matching filters, truncated after the first halting match. -/
def specActions (l : List (configFilter × Bool)) : List String :=
  (((uptoHalt l).filter fun p => p.2).map fun p => p.1.actions).flatten

/-- Whether a trace contains a submitted GitHub review. -/
def hasCreate (tr : List Effect) : Bool :=
  tr.any fun e =>
    match e with
    | .ghCreateReview _ _ _ => true
    | _ => false

/-- A GitHub oracle whose every call fails. -/
def apiStub : githubAPI :=
  { getPullRequest := fun _ _ _ => .error "stub"
    listReviews := fun _ _ _ => .error "stub"
    getCurrentUser := .error "stub"
    createReview := fun _ _ _ => .error "stub" }

/-- A mail oracle whose every command succeeds. -/
def mailOk : mailClient := ⟨fun _ _ => .ok (), fun _ _ => .ok ()⟩

/-- A mail oracle whose every command fails. -/
def mailFail : mailClient := ⟨fun _ _ => .error "boom", fun _ _ => .error "boom"⟩

/-- A configuration with GitHub approval enabled and no filters, for dispatch
fixtures. -/
def cfgEnabled : config :=
  { github := ⟨⟨true, ["alice"], ["o/r"]⟩⟩, filters := [] }

/-- A message from `a@x.com` with no flags, for loop fixtures. -/
def msgW : fetchMessageBuffer :=
  { uid := 7, flags := [], envFrom := [⟨"Alice", "a", "x.com"⟩], envCc := [],
    envTo := [], envReplyTo := [], subject := "hi", bodySections := ["hello"] }

/-- A filter matching messages from `a@x.com`. -/
def fW1 : configFilter :=
  { name := "r1", prefetches := []
    condition := fun env => .ok (.vbool (env.message.mfrom.contains "a@x.com"))
    actions := ["label \"L\""], haltOnMatch := false }

/-- A filter whose condition is constantly false. -/
def fW2 : configFilter :=
  { name := "r2", prefetches := [], condition := fun _ => .ok (.vbool false)
    actions := ["delete"], haltOnMatch := false }

/-- A two-filter configuration for the loop fixtures. -/
def cfgW : config := { github := ⟨⟨false, [], []⟩⟩, filters := [fW1, fW2] }

/-- A filter whose condition evaluates to the string `"true"`. -/
def fStrTrue : configFilter :=
  { name := "s", prefetches := [], condition := fun _ => .ok (.vstr "true")
    actions := ["a1"], haltOnMatch := false }

/-- A configuration holding only `fStrTrue`. -/
def cfgStrTrue : config := { github := ⟨⟨false, [], []⟩⟩, filters := [fStrTrue] }

/-- An unseen message with empty envelope and body. -/
def msgEmpty : fetchMessageBuffer :=
  { uid := 1, flags := [], envFrom := [], envCc := [], envTo := [],
    envReplyTo := [], subject := "", bodySections := [] }

/-- A seen message. -/
def msgSeen : fetchMessageBuffer :=
  { uid := 2, flags := ["\\Seen"], envFrom := [], envCc := [], envTo := [],
    envReplyTo := [], subject := "", bodySections := [] }

/-- A filter whose condition errors at evaluation time. -/
def fErr : configFilter :=
  { name := "e", prefetches := [], condition := fun _ => .error "x"
    actions := ["z"], haltOnMatch := false }

/-- An empty message namespace, for loop fixtures. -/
def baseW : msgEnv := ⟨[], [], "", [], [], [], ""⟩

/-- A configuration with one always-matching filter whose action is `delete`. -/
def cfgDel : config :=
  { github := ⟨⟨false, [], []⟩⟩
    filters := [{ name := "d", prefetches := [], condition := fun _ => .ok (.vbool true)
                  actions := ["delete"], haltOnMatch := false }] }

/-- An unseen message with UID 3, for the cycle-abort fixture. -/
def msgU3 : fetchMessageBuffer :=
  { uid := 3, flags := [], envFrom := [], envCc := [], envTo := [],
    envReplyTo := [], subject := "", bodySections := [] }

/-- An unseen message with UID 4, for the cycle-abort fixture. -/
def msgU4 : fetchMessageBuffer :=
  { uid := 4, flags := [], envFrom := [], envCc := [], envTo := [],
    envReplyTo := [], subject := "", bodySections := [] }

/-- A GitHub oracle whose fetches fail. -/
def apiFailC7 : githubAPI := apiStub

/-- A body holding the pull-request URL `o/r#1`. -/
def bodyC7 : String := "https://github.com/o/r/pull/1"

/-- A GitHub oracle answering `PullRequests.Get` with author `alice`. -/
def apiOkC7 : githubAPI :=
  { getPullRequest := fun _ _ _ => .ok ⟨"alice"⟩
    listReviews := fun _ _ _ => .error "stub"
    getCurrentUser := .error "stub"
    createReview := fun _ _ _ => .error "stub" }

/-- The cached record for `o/r#1`. -/
def prC7 : githubPullRequest := ⟨"o", "r", 1, "alice"⟩

/-- GitHub configuration gating approvals to repo `o/r` and author `alice`. -/
def ghC8 : configGitHub := ⟨⟨true, ["alice"], ["o/r"]⟩⟩

/-- A pull request in a repository outside the allow-list, by a disallowed
author. -/
def prZ : githubPullRequest := ⟨"z", "r", 1, "zoe"⟩

/-- A pull request passing both allow-lists. -/
def prOK : githubPullRequest := ⟨"o", "r", 1, "alice"⟩

/-- A GitHub oracle reporting an existing approval by the current identity. -/
def apiApproved : githubAPI :=
  { getPullRequest := fun _ _ _ => .error "stub"
    listReviews := fun _ _ _ => .ok [⟨"me", "APPROVED"⟩]
    getCurrentUser := .ok "me"
    createReview := fun _ _ _ => .error "stub" }

theorem specActions_cons (f : configFilter) (b : Bool) (l : List (configFilter × Bool)) :
    specActions ((f, b) :: l) =
      if b then (if f.haltOnMatch then f.actions else f.actions ++ specActions l)
      else specActions l := by
  cases b <;> cases hh : f.haltOnMatch <;>
    simp [specActions, uptoHalt, hh]

theorem collect_eq_spec (api : githubAPI) (body : String) (base : msgEnv) :
    ∀ (fs : List configFilter) (pd : Option githubPullRequest) (cache : Cache),
      (collectActions api body base pd cache fs).1 =
        specActions (fs.zip (matchBits api body base pd cache fs)) := by
  intro fs
  induction fs with
  | nil => intro pd cache; rfl
  | cons f fs ih =>
    intro pd cache
    simp only [collectActions, matchBits]
    cases hm : (stepFilter api body base pd cache f).2.1 <;>
      cases hh : f.haltOnMatch <;>
        simp [hm, hh, List.zip_cons_cons, specActions_cons, ih]

/-- C1: for an unseen message and any ordered filter list, the action sequence
accumulated by the filter loop of `processMessage` equals the concatenation,
in declaration order, of the action lists of exactly the filters whose
condition matches, up to and including the first matching filter whose
halt-on-match flag is set; filters after the halting match contribute nothing
and earlier non-halting matches are retained. -/
theorem c1_actions_spec (api : githubAPI) (cache : Cache) (cfg : config)
    (msg : fetchMessageBuffer) (hUnseen : msg.flags.contains FlagSeen = false) :
    (messageActions api cache cfg msg).1 =
      specActions (cfg.filters.zip
        (matchBits api (msgBody msg) (mkMsgEnv msg) none cache cfg.filters)) :=
  collect_eq_spec api (msgBody msg) (mkMsgEnv msg) cfg.filters none cache

/-- Witness for C1 at a concrete unseen message and a concrete filter list:
only the first filter matches, so its single action is accumulated. -/
theorem c1_actions_spec_witness :
    msgW.flags.contains FlagSeen = false ∧
    (messageActions apiStub [] cfgW msgW).1 = ["label \"L\""] :=
  ⟨rfl, (c1_actions_spec apiStub [] cfgW msgW rfl).trans (by decide)⟩

/-- C2 counterexample: a condition outcome that is the string `"true"` — not
the boolean `true` — still counts as a match, because the engine compares
`fmt.Sprintf("%v", result)` with `"true"`; the filter's actions are
accumulated. -/
theorem c2_counterexample :
    isMatchRes (.ok (.vstr "true")) = true ∧
    GoValue.vstr "true" ≠ GoValue.vbool true ∧
    (messageActions apiStub [] cfgStrTrue msgEmpty).1 = ["a1"] :=
  ⟨rfl, by decide, rfl⟩

/-- C2 (amended): a condition counts as a match iff the default Go formatting
of its outcome is the string `"true"`: boolean `true` matches, boolean
`false`, an evaluation error and a `nil` outcome do not, but a string outcome
`"true"` also matches; a non-matching (in particular erroring) condition
contributes nothing and never aborts the filter loop. -/
theorem c2_amended_match_rule :
    (∀ b, isMatchRes (.ok (.vbool b)) = b) ∧
    (∀ e, isMatchRes (.error e) = false) ∧
    isMatchRes (.ok .vnil) = false ∧
    (∀ s, isMatchRes (.ok (.vstr s)) = (s == "true")) ∧
    (∀ (api : githubAPI) (body : String) (base : msgEnv)
        (pd : Option githubPullRequest) (cache : Cache) (f : configFilter)
        (fs : List configFilter),
      (stepFilter api body base pd cache f).2.1 = false →
        (collectActions api body base pd cache (f :: fs)).1 =
          (collectActions api body base (stepFilter api body base pd cache f).1.1
            (stepFilter api body base pd cache f).1.2 fs).1) := by
  refine ⟨?_, ?_, by decide, ?_, ?_⟩
  · intro b; cases b <;> rfl
  · intro e; rfl
  · intro s; rfl
  · intro api body base pd cache f fs h
    simp only [collectActions]
    simp [h]

/-- Witness for C2 (amended) at concrete outcomes and a concrete erroring
filter. -/
theorem c2_amended_match_rule_witness :
    isMatchRes (.ok (.vbool true)) = true ∧
    isMatchRes (.error "x") = false ∧
    (collectActions apiStub "b" baseW none [] [fErr]).1 = [] :=
  ⟨c2_amended_match_rule.1 true, c2_amended_match_rule.2.1 "x",
    (c2_amended_match_rule.2.2.2.2 apiStub "b" baseW none [] fErr [] (by decide)).trans rfl⟩

/-- C3: a message carrying the seen flag is skipped before any filter is
evaluated: `processMessage` returns nil, issues no effect and leaves the cache
unchanged, for every configuration and every oracle. -/
theorem c3_seen_short_circuit (dryRun : Bool) (mail : mailClient) (api : githubAPI)
    (cfg : config) (cache : Cache) (msg : fetchMessageBuffer)
    (hSeen : msg.flags.contains FlagSeen = true) :
    processMessage dryRun mail api cfg cache msg = (.ok (), cache, []) := by
  unfold processMessage
  rw [if_pos hSeen]

/-- Witness for C3 at a concrete seen message, with a failing mail oracle and
an always-matching filter: nothing happens anyway. -/
theorem c3_seen_short_circuit_witness :
    msgSeen.flags.contains FlagSeen = true ∧
    processMessage false mailFail apiStub cfgDel [] msgSeen = (.ok (), [], []) :=
  ⟨rfl, c3_seen_short_circuit false mailFail apiStub cfgDel [] msgSeen rfl⟩

/-- C4: the `delete` action is an alias for `move to "[Gmail]/Trash"`: both
dispatches issue exactly one IMAP move of the message's UID to
`[Gmail]/Trash`, and each succeeds exactly when that underlying move command
succeeds, so failures propagate identically. -/
theorem c4_delete_is_move_to_trash (mail : mailClient) (api : githubAPI) (cfg : config)
    (uid : Nat) (pd : Option githubPullRequest) :
    (execOneAction mail api cfg uid pd "delete").2 = [.mailMove uid "[Gmail]/Trash"] ∧
    (execOneAction mail api cfg uid pd "move to \"[Gmail]/Trash\"").2 =
      [.mailMove uid "[Gmail]/Trash"] ∧
    ((execOneAction mail api cfg uid pd "delete").1 = .ok () ↔
      mail.move uid "[Gmail]/Trash" = .ok ()) ∧
    ((execOneAction mail api cfg uid pd "move to \"[Gmail]/Trash\"").1 = .ok () ↔
      mail.move uid "[Gmail]/Trash" = .ok ()) := by
  have hd : execOneAction mail api cfg uid pd "delete" =
      (match mail.move uid "[Gmail]/Trash" with
        | .error e => (.error ("move email to trash: " ++ e), [.mailMove uid "[Gmail]/Trash"])
        | .ok _ => (.ok (), [.mailMove uid "[Gmail]/Trash"])) := rfl
  have hm : execOneAction mail api cfg uid pd "move to \"[Gmail]/Trash\"" =
      (match mail.move uid "[Gmail]/Trash" with
        | .error e =>
          (.error ("move email to mailbox \"[Gmail]/Trash\": " ++ e),
            [.mailMove uid "[Gmail]/Trash"])
        | .ok _ => (.ok (), [.mailMove uid "[Gmail]/Trash"])) := rfl
  cases h : mail.move uid "[Gmail]/Trash" <;> simp [hd, hm, h]

/-- Witness for C4 at a concrete UID and oracle: the two dispatches issue the
same trace. -/
theorem c4_delete_is_move_to_trash_witness :
    (execOneAction mailOk apiStub cfgEnabled 5 none "delete").2 =
      (execOneAction mailOk apiStub cfgEnabled 5 none "move to \"[Gmail]/Trash\"").2 :=
  ((c4_delete_is_move_to_trash mailOk apiStub cfgEnabled 5 none).1).trans
    ((c4_delete_is_move_to_trash mailOk apiStub cfgEnabled 5 none).2.1).symm

/-- C5 counterexample: the action `DELETE` (uppercase spelling of `delete`) is
not dispatched as a delete; it falls through every keyword branch and is
treated as an unknown action, issuing no mail-store command. -/
theorem c5_counterexample :
    execOneAction mailOk apiStub cfgEnabled 1 none "DELETE" =
      (.ok (), [.warnUnknownAction "DELETE"]) := rfl

/-- C5 (amended): only the `<provider> review` form is matched
case-insensitively; `delete`, `label "<name>"` and `move to "<mailbox>"`
dispatch only in their exact lowercase keyword spelling, and other-case
spellings of those forms are treated as unknown actions. -/
theorem c5_amended_case_sensitivity :
    execOneAction mailOk apiStub cfgEnabled 1 none "delete" =
      (.ok (), [.mailMove 1 "[Gmail]/Trash"]) ∧
    execOneAction mailOk apiStub cfgEnabled 1 none "label \"x\"" =
      (.ok (), [.mailCopy 1 "x"]) ∧
    execOneAction mailOk apiStub cfgEnabled 1 none "move to \"M\"" =
      (.ok (), [.mailMove 1 "M"]) ∧
    execOneAction mailOk apiStub cfgEnabled 1 none "Delete" =
      (.ok (), [.warnUnknownAction "Delete"]) ∧
    execOneAction mailOk apiStub cfgEnabled 1 none "Label \"x\"" =
      (.ok (), [.warnUnknownAction "Label \"x\""]) ∧
    execOneAction mailOk apiStub cfgEnabled 1 none "MOVE TO \"M\"" =
      (.ok (), [.warnUnknownAction "MOVE TO \"M\""]) ∧
    execOneAction mailOk apiStub cfgEnabled 1 (some prZ) "GitHub Review" =
      (.ok (), [.logRepoNotAllowed "z/r"]) ∧
    execOneAction mailOk apiStub cfgEnabled 1 (some prZ) "GITHUB\tREVIEW" =
      (.ok (), [.logRepoNotAllowed "z/r"]) ∧
    execOneAction mailOk apiStub cfgEnabled 1 (some prZ) "github review" =
      (.ok (), [.logRepoNotAllowed "z/r"]) :=
  ⟨rfl, rfl, rfl, rfl, rfl, rfl, rfl, rfl, rfl⟩

theorem execActions_ok_append (mail : mailClient) (api : githubAPI) (cfg : config)
    (uid : Nat) (pd : Option githubPullRequest) :
    ∀ (pre : List String) (trPre : List Effect),
      execActions mail api cfg uid pd pre = (.ok (), trPre) →
      ∀ rest, execActions mail api cfg uid pd (pre ++ rest) =
        ((execActions mail api cfg uid pd rest).1,
          trPre ++ (execActions mail api cfg uid pd rest).2) := by
  intro pre
  induction pre with
  | nil =>
    intro trPre h rest
    have h2 : trPre = ([] : List Effect) := by
      simpa [execActions] using congrArg Prod.snd h.symm
    subst h2
    rfl
  | cons a as ih =>
    intro trPre h rest
    rcases h1 : execOneAction mail api cfg uid pd a with ⟨r1, tr1⟩
    cases r1 with
    | error e =>
      simp only [execActions, h1] at h
      exact absurd (congrArg Prod.fst h) (by simp)
    | ok u =>
      simp only [execActions, h1] at h
      have hfst : (execActions mail api cfg uid pd as).1 = .ok () := by
        simpa using congrArg Prod.fst h
      have hsnd : trPre = tr1 ++ (execActions mail api cfg uid pd as).2 := by
        simpa using (congrArg Prod.snd h).symm
      have hAs : execActions mail api cfg uid pd as =
          (.ok (), (execActions mail api cfg uid pd as).2) := Prod.ext hfst rfl
      have ih2 := ih _ hAs rest
      simp only [List.cons_append, execActions, h1, ih2]
      simp [ih2, hsnd, List.append_assoc]

/-- C6: a failing action aborts the remaining actions of the message's list
(their effects never happen), and the error propagates to the cycle loop,
which stops immediately — the remaining messages of the cycle are neither
processed nor added to the ledger — and returns the wrapped error to its
caller. -/
theorem c6_failure_aborts :
    (∀ (mail : mailClient) (api : githubAPI) (cfg : config) (uid : Nat)
        (pd : Option githubPullRequest) (pre : List String) (trPre : List Effect)
        (a e : String) (trA : List Effect) (post : List String),
      execActions mail api cfg uid pd pre = (.ok (), trPre) →
      execOneAction mail api cfg uid pd a = (.error e, trA) →
      execActions mail api cfg uid pd (pre ++ a :: post) = (.error e, trPre ++ trA)) ∧
    (∀ (dryRun : Bool) (mail : mailClient) (api : githubAPI) (cfg : config)
        (cache cache1 : Cache) (processed target : List Nat)
        (m : fetchMessageBuffer) (rest : List fetchMessageBuffer)
        (e : String) (tr : List Effect),
      processed.contains m.uid = false →
      (!target.isEmpty && !(target.contains m.uid)) = false →
      processMessage dryRun mail api cfg cache m = (.error e, cache1, tr) →
      runOnceLoop dryRun mail api cfg cache processed target (m :: rest) =
        (.error (wrapUid m.uid e), cache1, processed, tr)) := by
  constructor
  · intro mail api cfg uid pd pre trPre a e trA post hpre ha
    rw [execActions_ok_append mail api cfg uid pd pre trPre hpre (a :: post)]
    simp only [execActions, ha]
  · intro dryRun mail api cfg cache cache1 processed target m rest e tr h1 h2 h3
    simp only [runOnceLoop]
    rw [if_neg (by rw [h1]; simp), if_neg (by rw [h2]; simp), h3]

/-- Witness for C6: with a failing mail oracle, the first `delete` aborts the
rest of the action list, and the first message's failure stops the cycle
before the second message. -/
theorem c6_failure_aborts_witness :
    execActions mailFail apiStub cfgDel 3 none ["delete", "label \"x\""] =
      (.error "move email to trash: boom", [.mailMove 3 "[Gmail]/Trash"]) ∧
    runOnceLoop false mailFail apiStub cfgDel [] [] [] [msgU3, msgU4] =
      (.error "uid 3: move email to trash: boom", [], [], [.mailMove 3 "[Gmail]/Trash"]) :=
  ⟨c6_failure_aborts.1 mailFail apiStub cfgDel 3 none [] [] "delete"
      "move email to trash: boom" [.mailMove 3 "[Gmail]/Trash"] ["label \"x\""] rfl rfl,
    c6_failure_aborts.2 false mailFail apiStub cfgDel [] [] [] [] msgU3 [msgU4]
      "move email to trash: boom" [.mailMove 3 "[Gmail]/Trash"] rfl rfl rfl⟩

/-- C7 counterexample: when the first fetch of a key fails, nothing is cached,
and a second prefetch execution with the same key calls the external API again
instead of returning a cached record — two executions, two external fetches. -/
theorem c7_counterexample :
    executePrefetchGitHubPullRequest apiFailC7 [] bodyC7 =
      (.error "get GitHub pull request o/r#1: stub", [], [.ghGetPR "o" "r" 1]) ∧
    executePrefetchGitHubPullRequest apiFailC7
        (executePrefetchGitHubPullRequest apiFailC7 [] bodyC7).2.1 bodyC7 =
      (.error "get GitHub pull request o/r#1: stub", [], [.ghGetPR "o" "r" 1]) :=
  ⟨rfl, rfl⟩

/-- C7 (amended): after the first *successful* fetch of a key, every later
prefetch execution whose body parses to the same key returns the cached record
without calling the external API: a cache hit returns the stored record with
an empty call trace, a successful miss stores the record under the key, and
every execution preserves all existing cache entries. -/
theorem c7_amended_cache_discipline :
    (∀ (api : githubAPI) (cache : Cache) (body : String) (owner repo : String)
        (number : Nat) (pr : githubPullRequest),
      parseGitHubNotification body = .ok (owner, repo, number) →
      cache.lookup (prCacheKey owner repo number) = some pr →
      executePrefetchGitHubPullRequest api cache body = (.ok pr, cache, [])) ∧
    (∀ (api : githubAPI) (cache : Cache) (body : String) (owner repo : String)
        (number : Nat) (apr : apiPullRequest),
      parseGitHubNotification body = .ok (owner, repo, number) →
      cache.lookup (prCacheKey owner repo number) = none →
      api.getPullRequest owner repo number = .ok apr →
      executePrefetchGitHubPullRequest api cache body =
        (.ok ⟨owner, repo, number, apr.author⟩,
          (prCacheKey owner repo number,
            (⟨owner, repo, number, apr.author⟩ : githubPullRequest)) :: cache,
          [.ghGetPR owner repo number])) ∧
    (∀ (api : githubAPI) (cache : Cache) (body : String) (k : String)
        (v : githubPullRequest),
      cache.lookup k = some v →
      ((executePrefetchGitHubPullRequest api cache body).2.1).lookup k = some v) := by
  refine ⟨?_, ?_, ?_⟩
  · intro api cache body owner repo number pr hp hc
    simp only [executePrefetchGitHubPullRequest, hp, hc]
  · intro api cache body owner repo number apr hp hc hg
    simp only [executePrefetchGitHubPullRequest, hp, hc, hg]
  · intro api cache body k v hk
    simp only [executePrefetchGitHubPullRequest]
    cases hp : parseGitHubNotification body with
    | error e => simpa using hk
    | ok t =>
      obtain ⟨owner, repo, number⟩ := t
      dsimp only
      cases hc : List.lookup (prCacheKey owner repo number) cache with
      | some pr => simpa using hk
      | none =>
        cases hg : api.getPullRequest owner repo number with
        | error e => simpa using hk
        | ok apr =>
          have hne : (k == prCacheKey owner repo number) = false := by
            cases hkk : (k == prCacheKey owner repo number)
            · rfl
            · exfalso
              rw [eq_of_beq hkk, hc] at hk
              exact Option.noConfusion hk
          simpa [List.lookup, hne] using hk

/-- Witness for C7 (amended): a successful fetch of `o/r#1` stores the record,
after which the same body is served from the cache with no API call even under
a failing API oracle. -/
theorem c7_amended_cache_discipline_witness :
    executePrefetchGitHubPullRequest apiOkC7 [] bodyC7 =
      (.ok prC7, [("o/r#1", prC7)], [.ghGetPR "o" "r" 1]) ∧
    executePrefetchGitHubPullRequest apiFailC7 [("o/r#1", prC7)] bodyC7 =
      (.ok prC7, [("o/r#1", prC7)], []) :=
  ⟨c7_amended_cache_discipline.2.1 apiOkC7 [] bodyC7 "o" "r" 1 ⟨"alice"⟩ rfl rfl rfl,
    c7_amended_cache_discipline.1 apiFailC7 [("o/r#1", prC7)] bodyC7 "o" "r" 1 prC7 rfl rfl⟩

/-- C8: the review action submits no approval when the repository is outside
the allow-list (checked first, before the author allow-list) or when an
`APPROVED` review by the current identity already exists — both are logged
skips returning nil — and an approval is submitted only when the repository
and author checks pass and no such review exists. -/
theorem c8_review_gating :
    (∀ (api : githubAPI) (gh : configGitHub) (uid : Nat) (pr : githubPullRequest),
      gh.approval.allowedRepositories.contains (pr.owner ++ "/" ++ pr.repo) = false →
      processGitHubReview api gh uid (some pr) =
        (.ok (), [.logRepoNotAllowed (pr.owner ++ "/" ++ pr.repo)])) ∧
    (∀ (api : githubAPI) (gh : configGitHub) (uid : Nat) (pr : githubPullRequest)
        (reviews : List review) (me : String),
      gh.approval.allowedRepositories.contains (pr.owner ++ "/" ++ pr.repo) = true →
      gh.approval.allowedUsernames.contains pr.author = true →
      api.listReviews pr.owner pr.repo pr.number = .ok reviews →
      api.getCurrentUser = .ok me →
      reviews.any (fun r => r.user == me && r.state == "APPROVED") = true →
      processGitHubReview api gh uid (some pr) =
        (.ok (), [.ghListReviews pr.owner pr.repo pr.number, .ghGetUser,
          .logAlreadyApproved])) ∧
    (∀ (api : githubAPI) (gh : configGitHub) (uid : Nat) (pr : githubPullRequest),
      hasCreate (processGitHubReview api gh uid (some pr)).2 = true →
      gh.approval.allowedRepositories.contains (pr.owner ++ "/" ++ pr.repo) = true ∧
      gh.approval.allowedUsernames.contains pr.author = true ∧
      ∃ reviews me, api.listReviews pr.owner pr.repo pr.number = .ok reviews ∧
        api.getCurrentUser = .ok me ∧
        reviews.any (fun r => r.user == me && r.state == "APPROVED") = false) := by
  refine ⟨?_, ?_, ?_⟩
  · intro api gh uid pr h
    simp only [processGitHubReview]
    rw [if_pos (by rw [h]; rfl)]
  · intro api gh uid pr reviews me h1 h2 hl hu ha
    simp only [processGitHubReview]
    rw [if_neg (by rw [h1]; simp), if_neg (by rw [h2]; simp), hl, hu]
    dsimp only
    rw [if_pos ha]
  · intro api gh uid pr h
    simp only [processGitHubReview] at h
    cases hrepo : gh.approval.allowedRepositories.contains (pr.owner ++ "/" ++ pr.repo) with
    | false =>
      rw [if_pos (by rw [hrepo]; rfl)] at h
      simp [hasCreate] at h
    | true =>
      rw [if_neg (by rw [hrepo]; simp)] at h
      cases huser : gh.approval.allowedUsernames.contains pr.author with
      | false =>
        rw [if_pos (by rw [huser]; rfl)] at h
        simp [hasCreate] at h
      | true =>
        rw [if_neg (by rw [huser]; simp)] at h
        cases hl : api.listReviews pr.owner pr.repo pr.number with
        | error e =>
          rw [hl] at h
          simp [hasCreate] at h
        | ok reviews =>
          rw [hl] at h
          dsimp only at h
          cases hu : api.getCurrentUser with
          | error e =>
            rw [hu] at h
            simp [hasCreate] at h
          | ok me =>
            rw [hu] at h
            dsimp only at h
            cases ha : reviews.any (fun r => r.user == me && r.state == "APPROVED") with
            | true =>
              rw [if_pos ha] at h
              simp [hasCreate] at h
            | false => exact ⟨rfl, rfl, reviews, me, rfl, rfl, ha⟩

/-- Witness for C8: a repository outside the allow-list is skipped with only
the repo log (even though the author is also disallowed), and an existing
approval by the current identity is skipped after the two read calls. -/
theorem c8_review_gating_witness :
    processGitHubReview apiStub ghC8 9 (some prZ) = (.ok (), [.logRepoNotAllowed "z/r"]) ∧
    processGitHubReview apiApproved ghC8 9 (some prOK) =
      (.ok (), [.ghListReviews "o" "r" 1, .ghGetUser, .logAlreadyApproved]) :=
  ⟨c8_review_gating.1 apiStub ghC8 9 prZ rfl,
    c8_review_gating.2.1 apiApproved ghC8 9 prOK [⟨"me", "APPROVED"⟩] "me"
      rfl rfl rfl rfl rfl⟩

theorem foldBackoff_transient_aux :
    ∀ (msgs : List String), (∀ m ∈ msgs, isTransientError m = true) →
      ∀ k, foldBackoff k (msgs.map CycleResult.fail) = k + msgs.length := by
  intro msgs
  induction msgs with
  | nil => intro _ k; simp [foldBackoff]
  | cons m ms ih =>
    intro h k
    have hm : isTransientError m = true := h m (by simp)
    have hms : ∀ x ∈ ms, isTransientError x = true := fun x hx => h x (by simp [hx])
    calc foldBackoff k ((m :: ms).map CycleResult.fail)
        = foldBackoff (nextBackoffTimes (CycleResult.fail m) k) (ms.map CycleResult.fail) :=
          rfl
      _ = foldBackoff (k + 1) (ms.map CycleResult.fail) := by
          simp [nextBackoffTimes, hm]
      _ = (k + 1) + ms.length := ih hms (k + 1)
      _ = k + (m :: ms).length := by simp [List.length_cons]; omega

/-- C9: starting from any counter value, a successful cycle resets the
consecutive-failure counter to zero; after `N` consecutive transient failures
the counter is `N` and the computed sleep equals
`min(base × (N + 1), one minute)`; and at counter zero the sleep is the
configured base interval again. -/
theorem c9_backoff_formula (base : Int) (N : Nat) (msgs : List String) (s : Nat)
    (hlen : msgs.length = N)
    (htrans : ∀ m ∈ msgs, isTransientError m = true)
    (hb : 0 ≤ base)
    (hov : base * ((N : Int) + 1) < 9223372036854775808)
    (hceil : base ≤ minuteNs) :
    foldBackoff s (CycleResult.ok :: msgs.map CycleResult.fail) = N ∧
    goSleepInterval base N = min (base * ((N : Int) + 1)) minuteNs ∧
    (∀ n, nextBackoffTimes CycleResult.ok n = 0) ∧
    goSleepInterval base 0 = base := by
  have hceil' : base ≤ (60000000000 : Int) := hceil
  have hN1 : (0 : Int) ≤ (N : Int) + 1 := by omega
  have hge : 0 ≤ base * ((N : Int) + 1) := mul_nonneg hb hN1
  have hwrap : int64wrap (base * ((N : Int) + 1)) = base * ((N : Int) + 1) := by
    unfold int64wrap
    omega
  refine ⟨?_, ?_, fun n => rfl, ?_⟩
  · have h0 : foldBackoff s (CycleResult.ok :: msgs.map CycleResult.fail) =
        foldBackoff 0 (msgs.map CycleResult.fail) := rfl
    rw [h0, foldBackoff_transient_aux msgs htrans 0]
    omega
  · unfold goSleepInterval
    rw [hwrap]
    rcases le_or_lt (base * ((N : Int) + 1)) minuteNs with hle | hlt
    · rw [if_neg (not_lt.mpr hle), min_eq_left hle]
    · rw [if_pos hlt, min_eq_right hlt.le]
  · unfold goSleepInterval
    have hw0 : int64wrap (base * (((0 : Nat) : Int) + 1)) = base := by
      unfold int64wrap
      omega
    rw [hw0, if_neg (not_lt.mpr hceil)]

/-- Witness for C9: with a 15-second base, two consecutive transient failures
after a success give counter 2 and sleep 45 seconds; at counter zero the sleep
is the base again. -/
theorem c9_backoff_formula_witness :
    foldBackoff 7 (CycleResult.ok ::
        (["i/o timeout", "dial IMAP server: EOF"].map CycleResult.fail)) = 2 ∧
    goSleepInterval 15000000000 2 = 45000000000 ∧
    goSleepInterval 15000000000 0 = 15000000000 := by
  have h := c9_backoff_formula 15000000000 2 ["i/o timeout", "dial IMAP server: EOF"] 7
    rfl (by decide) (by decide) (by decide) (by decide)
  exact ⟨h.1, h.2.1.trans (by decide), h.2.2.2⟩

theorem executePrefetch_trace_nonmut (api : githubAPI) (cache : Cache) (body : String) :
    ((executePrefetchGitHubPullRequest api cache body).2.2).filter isMutating = [] := by
  simp only [executePrefetchGitHubPullRequest]
  cases parseGitHubNotification body with
  | error e => rfl
  | ok t =>
    obtain ⟨o, r, n⟩ := t
    dsimp only
    cases List.lookup (prCacheKey o r n) cache with
    | some pr => rfl
    | none =>
      cases api.getPullRequest o r n with
      | error e => rfl
      | ok apr => rfl

theorem runPrefetches_trace_nonmut (api : githubAPI) (body : String) :
    ∀ (ps : List String) (pd : Option githubPullRequest) (cache : Cache),
      ((runPrefetches api body pd cache ps).2.2).filter isMutating = [] := by
  intro ps
  induction ps with
  | nil => intro pd cache; rfl
  | cons p ps ih =>
    intro pd cache
    simp only [runPrefetches]
    by_cases hc : (githubPullRequestMatch p && matchPRURL body && pd.isNone) = true
    · rw [if_pos hc]
      have hx := executePrefetch_trace_nonmut api cache body
      rcases hex : executePrefetchGitHubPullRequest api cache body with ⟨r1, cache1, tr⟩
      rw [hex] at hx
      cases r1 with
      | error e =>
        simp only []
        simp [List.filter_append, hx, ih, isMutating]
      | ok pr =>
        simp only []
        simp [List.filter_append, hx, ih]
    · rw [if_neg hc]
      exact ih pd cache

theorem collectActions_trace_nonmut (api : githubAPI) (body : String) (base : msgEnv) :
    ∀ (fs : List configFilter) (pd : Option githubPullRequest) (cache : Cache),
      ((collectActions api body base pd cache fs).2.2.2).filter isMutating = [] := by
  intro fs
  induction fs with
  | nil => intro pd cache; rfl
  | cons f fs ih =>
    intro pd cache
    have hstep : ((stepFilter api body base pd cache f).2.2).filter isMutating = [] := by
      show ((runPrefetches api body pd cache f.prefetches).2.2 ++
          condErrTrace (f.condition (mkEnv base
            (runPrefetches api body pd cache f.prefetches).1))).filter isMutating = []
      rw [List.filter_append, runPrefetches_trace_nonmut]
      cases f.condition (mkEnv base (runPrefetches api body pd cache f.prefetches).1) with
      | error e => rfl
      | ok v => rfl
    simp only [collectActions]
    cases hm : (stepFilter api body base pd cache f).2.1 <;>
      cases hh : f.haltOnMatch <;>
        simp [hm, hh, List.filter_append, hstep, ih]

/-- C10: with dry-run enabled, `processMessage` returns nil for every message
and configuration and issues no mutating command: its effect trace contains no
IMAP move or copy and no submitted GitHub review. -/
theorem c10_dry_run_no_mutation (mail : mailClient) (api : githubAPI) (cfg : config)
    (cache : Cache) (msg : fetchMessageBuffer) :
    (processMessage true mail api cfg cache msg).1 = .ok () ∧
    ((processMessage true mail api cfg cache msg).2.2).filter isMutating = [] := by
  unfold processMessage
  cases hs : msg.flags.contains FlagSeen with
  | true =>
    rw [if_pos rfl]
    exact ⟨rfl, rfl⟩
  | false =>
    rw [if_neg (by simp)]
    dsimp only
    cases he : (messageActions api cache cfg msg).1.isEmpty with
    | true =>
      rw [if_pos rfl]
      exact ⟨rfl, collectActions_trace_nonmut api (msgBody msg) (mkMsgEnv msg)
        cfg.filters none cache⟩
    | false =>
      rw [if_neg (by simp), if_pos rfl]
      exact ⟨rfl, collectActions_trace_nonmut api (msgBody msg) (mkMsgEnv msg)
        cfg.filters none cache⟩

end GmailBlade
